import Mathlib

/-!
Verification of the `downloadr` parallel chunked HTTP(S) downloader
(`src/index.ts`, class `Downloadr`).

The development shallowly embeds the pure computations of the source
(`getChunks`, the header inspection in `getFileSize`, the status check and
request-option construction of `downloadChunk`) as executable Lean
functions, and models one invocation of `download()` as a relation
`DownloadRun` between an environment (the probe response, the filesystem
preallocation outcome, and the behaviour of each chunk fetch) and the
sequence of externally visible actions the run performs, together with its
final result.  Concurrent chunk fetches are modelled by quantifying over
all interleavings of the per-chunk action sequences.
-/

/-! ## Chunk planning (`Downloadr.getChunks`) -/

/-- A byte range chunk of the file.  The field `stop` models the source
field `end` (a reserved word in Lean). -/
structure Chunk where
  start : Nat
  stop : Nat
  deriving DecidableEq

/-- Ceiling division on naturals, modelling `Math.ceil(a / b)` for
nonnegative integer arguments. -/
def ceilDiv (a b : Nat) : Nat := (a + b - 1) / b

/-- The loop `for (let i = 0; i < fileSize; i += chunkSize)` of
`Downloadr.getChunks`, with explicit fuel bounding the number of
iterations.  Each iteration pushes
`{ start: i, end: Math.min(i + chunkSize - 1, fileSize - 1) }`. -/
def getChunksLoop (fileSize chunkSize : Nat) : Nat → Nat → List Chunk
  | 0, _ => []
  | fuel + 1, i =>
    if i < fileSize then
      { start := i, stop := min (i + chunkSize - 1) (fileSize - 1) } ::
        getChunksLoop fileSize chunkSize fuel (i + chunkSize)
    else []

/-- Model of `Downloadr.getChunks(fileSize)` with instance chunk count
`chunkCount`: `chunkSize = Math.ceil(fileSize / chunkCount)`, then the
planning loop.  Fuel `fileSize` suffices: the loop index grows by at least
one per iteration whenever `chunkSize ≥ 1` (see the termination theorem). -/
def getChunks (chunkCount fileSize : Nat) : List Chunk :=
  getChunksLoop fileSize (ceilDiv fileSize chunkCount) fileSize 0

/-- Invariant of the planning loop: the chunks starting at index `i` are
nonoverlapping, contiguous, within `[i, fs)`, and end exactly at `fs - 1`. -/
def coversFrom (fs : Nat) : Nat → List Chunk → Prop
  | i, [] => fs ≤ i
  | i, c :: rest =>
      c.start = i ∧ i < fs ∧ i ≤ c.stop ∧ c.stop + 1 ≤ fs ∧
        coversFrom fs (c.stop + 1) rest

theorem getChunksLoop_of_le (fs cs : Nat) :
    ∀ fuel i, fs ≤ i → getChunksLoop fs cs fuel i = [] := by
  intro fuel i h
  cases fuel with
  | zero => rfl
  | succ f => simp [getChunksLoop, Nat.not_lt.mpr h]

theorem getChunksLoop_covers (fs cs : Nat) (hcs : 0 < cs) :
    ∀ fuel i, fs - i ≤ fuel → coversFrom fs i (getChunksLoop fs cs fuel i) := by
  intro fuel
  induction fuel with
  | zero =>
    intro i h
    have hle : fs ≤ i := by omega
    simp [getChunksLoop, coversFrom, hle]
  | succ f ih =>
    intro i h
    by_cases hi : i < fs
    · rw [getChunksLoop, if_pos hi]
      refine ⟨rfl, hi, ?_, ?_, ?_⟩
      · simp only []
        omega
      · simp only []
        omega
      · simp only []
        by_cases hstep : i + cs ≤ fs
        · have hmin : min (i + cs - 1) (fs - 1) = i + cs - 1 := by omega
          have hsum : i + cs - 1 + 1 = i + cs := by omega
          rw [hmin, hsum]
          exact ih (i + cs) (by omega)
        · have hmin : min (i + cs - 1) (fs - 1) = fs - 1 := by omega
          have hsum : fs - 1 + 1 = fs := by omega
          rw [hmin, hsum, getChunksLoop_of_le fs cs f (i + cs) (by omega)]
          simp [coversFrom]
    · rw [getChunksLoop, if_neg hi]
      simp only [coversFrom]
      omega

theorem coversFrom_bounds (fs : Nat) :
    ∀ L i, coversFrom fs i L → ∀ c ∈ L, c.start ≤ c.stop := by
  intro L
  induction L with
  | nil => intro i _ c hc; cases hc
  | cons c rest ih =>
    intro i h c' hc'
    rcases List.mem_cons.mp hc' with h1 | h2
    · subst h1
      have ha := h.1
      have hb := h.2.2.1
      omega
    · exact ih (c.stop + 1) h.2.2.2.2 c' h2

theorem coversFrom_last (fs : Nat) :
    ∀ L i, coversFrom fs i L → ∀ hne : L ≠ [], (L.getLast hne).stop + 1 = fs := by
  intro L
  induction L with
  | nil => intro i _ hne; exact absurd rfl hne
  | cons c rest ih =>
    intro i h hne
    cases rest with
    | nil =>
      have h4 : c.stop + 1 ≤ fs := h.2.2.2.1
      have h5 : fs ≤ c.stop + 1 := h.2.2.2.2
      simp [List.getLast]
      omega
    | cons c' rest' =>
      have := ih (c.stop + 1) h.2.2.2.2 (by simp)
      simpa [List.getLast_cons] using this

theorem coversFrom_chain (fs : Nat) :
    ∀ L i, coversFrom fs i L →
      List.Chain' (fun a b => a.stop + 1 = b.start) L := by
  intro L
  induction L with
  | nil => intro i _; exact List.chain'_nil
  | cons c rest ih =>
    intro i h
    cases rest with
    | nil => simp
    | cons c' rest' =>
      rw [List.chain'_cons]
      exact ⟨(h.2.2.2.2).1.symm, ih (c.stop + 1) h.2.2.2.2⟩

theorem ceilDiv_zero_left (b : Nat) : ceilDiv 0 b = 0 := by
  unfold ceilDiv
  cases b with
  | zero => rfl
  | succ n => exact Nat.div_eq_of_lt (by omega)

theorem ceilDiv_step (cs n : Nat) (hcs : 0 < cs) (hn : 0 < n) :
    ceilDiv n cs = ceilDiv (n - cs) cs + 1 := by
  rcases le_or_lt cs n with hle | hlt
  · unfold ceilDiv
    have h1 : n + cs - 1 = (n - cs + cs - 1) + cs := by omega
    rw [h1, Nat.add_div_right _ hcs]
  · have h1 : n - cs = 0 := by omega
    rw [h1, ceilDiv_zero_left]
    unfold ceilDiv
    have h2 : (n + cs - 1) / cs = 1 := by
      apply Nat.div_eq_of_lt_le
      · omega
      · omega
    omega

theorem getChunksLoop_length (fs cs : Nat) (hcs : 0 < cs) :
    ∀ fuel i, fs - i ≤ fuel →
      (getChunksLoop fs cs fuel i).length = ceilDiv (fs - i) cs := by
  intro fuel
  induction fuel with
  | zero =>
    intro i h
    have h0 : fs - i = 0 := by omega
    rw [h0, ceilDiv_zero_left]
    rfl
  | succ f ih =>
    intro i h
    by_cases hi : i < fs
    · rw [getChunksLoop, if_pos hi]
      have hrec := ih (i + cs) (by omega)
      have heq : fs - (i + cs) = fs - i - cs := by omega
      rw [List.length_cons, hrec, heq,
        ← ceilDiv_step cs (fs - i) hcs (by omega)]
    · rw [getChunksLoop, if_neg hi]
      have h0 : fs - i = 0 := by omega
      rw [h0, ceilDiv_zero_left]
      rfl

theorem getChunks_covers (chunkCount fileSize : Nat) (hcc : 1 ≤ chunkCount)
    (hfs : 1 ≤ fileSize) : coversFrom fileSize 0 (getChunks chunkCount fileSize) := by
  apply getChunksLoop_covers
  · unfold ceilDiv
    have : chunkCount ≤ fileSize + chunkCount - 1 := by omega
    exact Nat.one_le_div_iff (by omega) |>.mpr this
  · omega

theorem getChunks_chunkSize_pos (chunkCount fileSize : Nat) (hcc : 1 ≤ chunkCount)
    (hfs : 1 ≤ fileSize) : 1 ≤ ceilDiv fileSize chunkCount := by
  unfold ceilDiv
  have : chunkCount ≤ fileSize + chunkCount - 1 := by omega
  exact Nat.one_le_div_iff (by omega) |>.mpr this

/-- C1: for `fileSize ≥ 1` and `chunkCount ≥ 1` the planned ranges start at
0, end at `fileSize - 1`, are contiguous and gapless (each range's end is
the next range's start minus one), each range is ascending
(`start ≤ end`), and there are exactly
`ceil(fileSize / ceil(fileSize / chunkCount))` of them; for `fileSize = 0`
the plan is empty. -/
theorem getChunks_partition_spec (fileSize chunkCount : Nat) (hcc : 1 ≤ chunkCount) :
    (fileSize = 0 → getChunks chunkCount fileSize = []) ∧
    (1 ≤ fileSize →
      (getChunks chunkCount fileSize).head?.map Chunk.start = some 0 ∧
      (getChunks chunkCount fileSize).getLast?.map Chunk.stop = some (fileSize - 1) ∧
      List.Chain' (fun a b => a.stop + 1 = b.start) (getChunks chunkCount fileSize) ∧
      (∀ c ∈ getChunks chunkCount fileSize, c.start ≤ c.stop) ∧
      (getChunks chunkCount fileSize).length =
        ceilDiv fileSize (ceilDiv fileSize chunkCount)) := by
  constructor
  · intro h0
    subst h0
    rfl
  · intro hfs
    have hcov := getChunks_covers chunkCount fileSize hcc hfs
    have hne : getChunks chunkCount fileSize ≠ [] := by
      intro hnil
      rw [hnil] at hcov
      have : fileSize ≤ 0 := hcov
      omega
    refine ⟨?_, ?_, ?_, ?_, ?_⟩
    · rcases hL : getChunks chunkCount fileSize with _ | ⟨c, rest⟩
      · exact absurd hL hne
      · rw [hL] at hcov
        simp [hcov.1]
    · rw [List.getLast?_eq_getLast _ hne]
      have hlast := coversFrom_last fileSize _ 0 hcov hne
      simp only [Option.map_some']
      congr 1
      omega
    · exact coversFrom_chain fileSize _ 0 hcov
    · exact coversFrom_bounds fileSize _ 0 hcov
    · have := getChunksLoop_length fileSize (ceilDiv fileSize chunkCount)
        (getChunks_chunkSize_pos chunkCount fileSize hcc hfs) fileSize 0 (by omega)
      simpa [getChunks] using this

/-- Witness for C1 at `fileSize = 10`, `chunkCount = 3` (and the empty case
at `fileSize = 0`). -/
theorem getChunks_partition_spec_witness :
    getChunks 3 0 = [] ∧
    (getChunks 3 10).head?.map Chunk.start = some 0 ∧
    (getChunks 3 10).getLast?.map Chunk.stop = some 9 ∧
    (getChunks 3 10).length = ceilDiv 10 (ceilDiv 10 3) := by
  have h := getChunks_partition_spec 0 3 (by decide)
  have h10 := getChunks_partition_spec 10 3 (by decide)
  exact ⟨h.1 rfl, (h10.2 (by decide)).1, (h10.2 (by decide)).2.1,
    (h10.2 (by decide)).2.2.2.2⟩

theorem getChunksLoop_congr (fs cs : Nat) (hcs : 0 < cs) :
    ∀ f₁, ∀ i f₂, fs - i ≤ f₁ → fs - i ≤ f₂ →
      getChunksLoop fs cs f₁ i = getChunksLoop fs cs f₂ i := by
  intro f₁
  induction f₁ with
  | zero =>
    intro i f₂ h1 h2
    have hle : fs ≤ i := by omega
    rw [getChunksLoop_of_le fs cs 0 i hle, getChunksLoop_of_le fs cs f₂ i hle]
  | succ f ih =>
    intro i f₂ h1 h2
    by_cases hi : i < fs
    · cases f₂ with
      | zero => omega
      | succ f' =>
        rw [getChunksLoop, getChunksLoop, if_pos hi, if_pos hi]
        congr 1
        exact ih (i + cs) f' (by omega) (by omega)
    · have hle : fs ≤ i := by omega
      rw [getChunksLoop_of_le fs cs _ i hle, getChunksLoop_of_le fs cs f₂ i hle]

/-- C10: when the instance chunk count is at least 1 the planning loop
terminates for every `fileSize`: the step `chunkSize = ceil(fileSize /
chunkCount)` is at least 1 whenever `fileSize ≥ 1`, and the loop's result
is already stable at `fileSize` iterations of fuel (the loop index strictly
increases and reaches `fileSize` in at most `fileSize` steps). -/
theorem getChunks_loop_termination_spec (fileSize chunkCount fuel : Nat)
    (hcc : 1 ≤ chunkCount) (hfuel : fileSize ≤ fuel) :
    (1 ≤ fileSize → 1 ≤ ceilDiv fileSize chunkCount) ∧
    getChunksLoop fileSize (ceilDiv fileSize chunkCount) fuel 0 =
      getChunks chunkCount fileSize := by
  constructor
  · intro hfs
    exact getChunks_chunkSize_pos chunkCount fileSize hcc hfs
  · by_cases hfs : 1 ≤ fileSize
    · exact getChunksLoop_congr fileSize (ceilDiv fileSize chunkCount)
        (getChunks_chunkSize_pos chunkCount fileSize hcc hfs) fuel 0 fileSize
        (by omega) (by omega)
    · have h0 : fileSize = 0 := by omega
      subst h0
      rw [getChunksLoop_of_le 0 _ fuel 0 (by omega)]
      rfl

/-- Witness for C10 at `fileSize = 10`, `chunkCount = 3`, fuel `12`. -/
theorem getChunks_loop_termination_spec_witness :
    1 ≤ ceilDiv 10 3 ∧
    getChunksLoop 10 (ceilDiv 10 3) 12 0 = getChunks 3 10 := by
  have h := getChunks_loop_termination_spec 10 3 12 (by decide) (by decide)
  exact ⟨h.1 (by decide), h.2⟩

/-! ## Size discovery (`Downloadr.getFileSize`) -/

/-- Value of a digit string in base 10 (all characters are digits). -/
def digitsToNat (cs : List Char) : Nat :=
  cs.foldl (fun a c => 10 * a + (c.toNat - 48)) 0

/-- JavaScript whitespace accepted by `parseInt` (ASCII subset). -/
def isWS (c : Char) : Bool :=
  c == ' ' || c == '\t' || c == '\n' || c == '\r' || c == '\x0b' || c == '\x0c'

/-- Model of JavaScript `parseInt(s, 10)`: skip leading whitespace, read an
optional sign, then the longest digit run; `none` models `NaN` (no digits). -/
def parseInt10 (s : String) : Option Int :=
  let cs := s.data.dropWhile isWS
  match cs with
  | '-' :: rest =>
      let ds := rest.takeWhile Char.isDigit
      if ds.isEmpty then none else some (-(digitsToNat ds : Int))
  | '+' :: rest =>
      let ds := rest.takeWhile Char.isDigit
      if ds.isEmpty then none else some (digitsToNat ds : Int)
  | _ =>
      let ds := cs.takeWhile Char.isDigit
      if ds.isEmpty then none else some (digitsToNat ds : Int)

/-- Try to match the regular expression `bytes \d+-\d+\/(\d+)` at the head
of `cs`, returning the value of the capture group `(\d+)` (the total size).
Greedy digit runs coincide with regex semantics here because each `\d+` is
followed by a non-digit character or the end of the pattern. -/
def matchCRAt (cs : List Char) : Option Nat :=
  match cs with
  | 'b' :: 'y' :: 't' :: 'e' :: 's' :: ' ' :: r0 =>
      let d1 := r0.takeWhile Char.isDigit
      let r1 := r0.dropWhile Char.isDigit
      if d1.isEmpty then none else
      match r1 with
      | '-' :: r2 =>
          let d2 := r2.takeWhile Char.isDigit
          let r3 := r2.dropWhile Char.isDigit
          if d2.isEmpty then none else
          match r3 with
          | '/' :: r4 =>
              let d3 := r4.takeWhile Char.isDigit
              if d3.isEmpty then none else some (digitsToNat d3)
          | _ => none
      | _ => none
  | _ => none

/-- Leftmost match of `contentRange.match(/bytes \d+-\d+\/(\d+)/)`: scan
every start position from the left, returning the first capture. -/
def findCRTotal : List Char → Option Nat
  | [] => none
  | c :: rest =>
      match matchCRAt (c :: rest) with
      | some n => some n
      | none => findCRTotal rest

/-- Ceiling of the rational `n / c` for integers (used with `c > 0`),
modelling `Math.ceil(n / c)` on exact values. -/
def intCeilDiv (n c : Int) : Int := -(Int.ediv (-n) c)

/-- The chunk-count policy `size < 100 * 1024 * 1024 ? 1 :
Math.ceil(size / (100 * 1024 * 1024))` applied in both resolving branches
of `getFileSize`; `none` models a `NaN` size (for which the comparison is
false and the ceiling is again `NaN`). -/
def resolveChunkCount : Option Int → Option Int
  | none => none
  | some n => if n < 104857600 then some 1 else some (intCeilDiv n 104857600)

/-- The `content-length` fallback of `getFileSize`: a truthy (present,
nonempty) header resolves its `parseInt` value and the derived chunk
count; otherwise the size is the sentinel `-1` and the chunk count 1. -/
def sizeFromLength : Option String → Option Int × Option Int
  | some s =>
      if s.data.isEmpty then (some (-1), some 1)
      else (parseInt10 s, resolveChunkCount (parseInt10 s))
  | none => (some (-1), some 1)

/-- Model of the response inspection in `Downloadr.getFileSize`: a truthy
`content-range` header whose value matches `bytes \d+-\d+\/(\d+)` resolves
the captured total; otherwise the `content-length` fallback applies.  The
first component is the resolved size, the second the updated instance
chunk count. -/
def getFileSize (contentRange contentLength : Option String) :
    Option Int × Option Int :=
  match contentRange with
  | some s =>
      if s.data.isEmpty then sizeFromLength contentLength
      else
        match findCRTotal s.data with
        | some t => (some (t : Int), resolveChunkCount (some (t : Int)))
        | none => sizeFromLength contentLength
  | none => sizeFromLength contentLength

/-- C2: size discovery inspects the probe response in precedence order:
a present `Content-Range` matching `bytes <a>-<b>/<total>` resolves the
parsed total; otherwise a present (nonempty) `Content-Length` resolves its
parsed value; otherwise the result is the sentinel `-1` (with chunk count
1), never a failure. -/
theorem getFileSize_precedence_spec (contentRange contentLength : Option String) :
    (∀ s t, contentRange = some s → findCRTotal s.data = some t →
      (getFileSize contentRange contentLength).1 = some (t : Int)) ∧
    ((∀ s, contentRange = some s → findCRTotal s.data = none) →
      ∀ s, contentLength = some s → s.data ≠ [] →
        (getFileSize contentRange contentLength).1 = parseInt10 s) ∧
    ((∀ s, contentRange = some s → findCRTotal s.data = none) →
      (∀ s, contentLength = some s → s.data = []) →
      getFileSize contentRange contentLength = (some (-1), some 1)) := by
  refine ⟨?_, ?_, ?_⟩
  · intro s t hcr hf
    subst hcr
    simp only [getFileSize]
    by_cases hemp : s.data.isEmpty
    · rw [List.isEmpty_iff] at hemp
      rw [hemp] at hf
      exact absurd hf (by simp [findCRTotal])
    · rw [if_neg hemp, hf]
  · intro hno s hcl hne
    have hlen : (sizeFromLength contentLength).1 = parseInt10 s := by
      subst hcl
      simp only [sizeFromLength]
      rw [if_neg (by simpa [List.isEmpty_iff] using hne)]
    cases contentRange with
    | none => simpa [getFileSize] using hlen
    | some cr =>
      simp only [getFileSize]
      by_cases hemp : cr.data.isEmpty
      · rw [if_pos hemp]
        exact hlen
      · rw [if_neg hemp, hno cr rfl]
        exact hlen
  · intro hno hlen
    have hfall : sizeFromLength contentLength = (some (-1), some 1) := by
      cases contentLength with
      | none => rfl
      | some cl =>
        simp only [sizeFromLength]
        rw [if_pos (by simpa [List.isEmpty_iff] using hlen cl rfl)]
    cases contentRange with
    | none => simpa [getFileSize] using hfall
    | some cr =>
      simp only [getFileSize]
      by_cases hemp : cr.data.isEmpty
      · rw [if_pos hemp]
        exact hfall
      · rw [if_neg hemp, hno cr rfl]
        exact hfall

/-- Witness for C2: a matching `Content-Range`, the `Content-Length`
fallback, and the sentinel case, at concrete headers. -/
theorem getFileSize_precedence_spec_witness :
    (getFileSize (some ("bytes 0-0/123456")) none).1 = some 123456 ∧
    (getFileSize none (some ("1000"))).1 = parseInt10 ("1000") ∧
    getFileSize none none = (some (-1), some 1) := by
  refine ⟨?_, ?_, ?_⟩
  · exact (getFileSize_precedence_spec (some ("bytes 0-0/123456")) none).1
      ("bytes 0-0/123456") 123456 rfl (by decide)
  · exact (getFileSize_precedence_spec none (some ("1000"))).2.1
      (fun s h => nomatch h) ("1000") rfl (by decide)
  · exact (getFileSize_precedence_spec none none).2.2
      (fun s h => nomatch h) (fun s h => nomatch h)

theorem getFileSize_snd_eq (contentRange contentLength : Option String) :
    (getFileSize contentRange contentLength).2 =
      resolveChunkCount (getFileSize contentRange contentLength).1 := by
  have hlen : (sizeFromLength contentLength).2 =
      resolveChunkCount (sizeFromLength contentLength).1 := by
    cases contentLength with
    | none => decide
    | some cl =>
      simp only [sizeFromLength]
      by_cases hemp : cl.data.isEmpty
      · rw [if_pos hemp]
        decide
      · rw [if_neg hemp]
  cases contentRange with
  | none => simpa [getFileSize] using hlen
  | some cr =>
    simp only [getFileSize]
    by_cases hemp : cr.data.isEmpty
    · rw [if_pos hemp]
      exact hlen
    · rw [if_neg hemp]
      cases hf : findCRTotal cr.data with
      | none => exact hlen
      | some t => simp

/-- C3: whenever size discovery resolves a known size `s`, the instance
chunk count becomes 1 if `s < 100 MiB` and `ceil(s / 100 MiB)` otherwise;
with only `Content-Length: 987654321` the size is 987654321 and the chunk
count 10; with neither header the chunk count is 1. -/
theorem chunkCount_policy_spec :
    (∀ contentRange contentLength s,
      (getFileSize contentRange contentLength).1 = some s →
      (getFileSize contentRange contentLength).2 =
        (if s < 104857600 then some 1 else some (intCeilDiv s 104857600))) ∧
    getFileSize none (some ("987654321")) = (some 987654321, some 10) ∧
    (getFileSize none none).2 = some 1 := by
  refine ⟨?_, by decide, by decide⟩
  intro cr cl s hs
  rw [getFileSize_snd_eq, hs]
  simp [resolveChunkCount]

/-- Witness for C3 at the concrete `Content-Length: 987654321` response. -/
theorem chunkCount_policy_spec_witness :
    (getFileSize none (some ("987654321"))).2 =
      (if (987654321 : Int) < 104857600 then some 1
        else some (intCeilDiv 987654321 104857600)) ∧
    getFileSize none (some ("987654321")) = (some 987654321, some 10) := by
  refine ⟨?_, chunkCount_policy_spec.2.1⟩
  exact chunkCount_policy_spec.1 none (some ("987654321")) 987654321 (by decide)

/-! ## Events, actions, and the chunk fetcher (`Downloadr.downloadChunk`) -/

/-- Outcome of the streamed response body: a clean `end` event or an
`error` event carrying a message. -/
inductive StreamOutcome
  | done
  | err (msg : String)
  deriving DecidableEq

/-- Environment-chosen behaviour of one chunk fetch: either the request
itself errors (the request error listener path), or a response arrives with a
status code, a sequence of data-buffer sizes, and a stream outcome. -/
inductive FetchBehavior
  | reqError (msg : String)
  | resp (status : Nat) (body : List Nat) (outcome : StreamOutcome)
  deriving DecidableEq

/-- Environment-chosen behaviour of the size probe request: either a
transport error or a response with the two size headers. -/
inductive ProbeResult
  | err (msg : String)
  | resp (contentRange contentLength : Option String)
  deriving DecidableEq

/-- The events of `DownloadrEvents`, with the payloads the claims need. -/
inductive Event
  | downloadStart
  | downloadComplete
  | chunkProgress (start : Nat) (stop : Option Nat) (bytes : Nat)
  | chunkDownloaded (start : Nat) (stop : Option Nat)
  | chunkFailed (msg : String)
  | downloadFailed (msg : String)
  deriving DecidableEq

/-- Externally visible actions of one `download()` run: the size probe
request, a `protocolClient.get` with an optional `Range` header value, the
preallocation file operations (`openSync` with mode `w`, `ftruncateSync`,
`closeSync`), opening the positional write stream
(`createWriteStream` with the chunk start offset and mode `r+`), piping a
data buffer into the file, and emitting an event. -/
inductive Act
  | probeRequest
  | getRequest (range : Option String)
  | openTrunc
  | setLength (n : Nat)
  | closeFd
  | openAt (start : Nat)
  | write (bytes : Nat)
  | evt (e : Event)
  deriving DecidableEq

/-- The request options of `downloadChunk`: no `Range` header when
`end === Infinity` (modelled as `none`), otherwise
`Range: bytes=<start>-<end>`. -/
def rangeHeader (start : Nat) (stop : Option Nat) : Option String :=
  match stop with
  | none => none
  | some e => some ("bytes=" ++ toString start ++ "-" ++ toString e)

/-- The response-handling part of `downloadChunk(start, end)` (everything
after the `protocolClient.get` call is issued), as the list of actions it
performs and its promise result.  A bad status rejects without emitting
anything; otherwise the positional write stream opens at `start`, each data
buffer is piped and reported as progress, and the stream outcome emits
`CHUNK_DOWNLOADED` (resolve) or `CHUNK_DOWNLOAD_FAILED` (reject); a request
error emits `CHUNK_DOWNLOAD_FAILED` and rejects. -/
def chunkAsync (start : Nat) (stop : Option Nat) :
    FetchBehavior → List Act × Except String Unit
  | .reqError m => ([.evt (.chunkFailed m)], .error m)
  | .resp st body oc =>
      if st ≠ 206 ∧ st ≠ 200 then
        ([], .error ("Unexpected status code: " ++ toString st))
      else
        match oc with
        | .done =>
            (.openAt start ::
              body.flatMap (fun n => [.write n, .evt (.chunkProgress start stop n)]) ++
              [.evt (.chunkDownloaded start stop)], .ok ())
        | .err m =>
            (.openAt start ::
              body.flatMap (fun n => [.write n, .evt (.chunkProgress start stop n)]) ++
              [.evt (.chunkFailed m)], .error m)

/-- Model of one `downloadChunk(start, end)` call: the synchronous
`protocolClient.get` with the computed range options, followed by the
response handling. -/
def downloadChunk (start : Nat) (stop : Option Nat) (b : FetchBehavior) :
    List Act × Except String Unit :=
  (.getRequest (rangeHeader start stop) :: (chunkAsync start stop b).1,
    (chunkAsync start stop b).2)

/-- C6: a chunk fetch fails with the status error
`Unexpected status code: <code>` exactly when the response status is
neither 200 nor 206; on status 200 or 206 the result is determined by the
stream outcome alone (no status error). -/
theorem downloadChunk_status_spec (start : Nat) (stop : Option Nat) (st : Nat)
    (body : List Nat) (oc : StreamOutcome) :
    ((st ≠ 200 ∧ st ≠ 206) →
      (downloadChunk start stop (.resp st body oc)).2 =
        .error ("Unexpected status code: " ++ toString st)) ∧
    ((st = 200 ∨ st = 206) →
      (downloadChunk start stop (.resp st body oc)).2 =
        (match oc with
          | .done => .ok ()
          | .err m => .error m)) := by
  constructor
  · intro h
    simp [downloadChunk, chunkAsync, h.1, h.2]
  · intro h
    rcases h with h | h <;> subst h <;> cases oc <;> simp [downloadChunk, chunkAsync]

/-- Witness for C6 at statuses 404 and 200. -/
theorem downloadChunk_status_spec_witness :
    (downloadChunk 0 none (.resp 404 [] .done)).2 =
      .error ("Unexpected status code: " ++ toString 404) ∧
    (downloadChunk 0 none (.resp 200 [] (.err ("boom")))).2 = .error ("boom") := by
  refine ⟨(downloadChunk_status_spec 0 none 404 [] .done).1 (by decide), ?_⟩
  exact (downloadChunk_status_spec 0 none 200 [] (.err ("boom"))).2 (Or.inl rfl)

/-! ## Traces, interleavings, and trace predicates -/

/-- The events emitted along a trace, in order. -/
def eventsOf (T : List Act) : List Event :=
  T.filterMap (fun a => match a with | .evt e => some e | _ => none)

/-- Actions that belong to some chunk fetch: issuing its request, opening
its write stream, piping data, or emitting one of the three chunk events. -/
def chunkAct : Act → Bool
  | .getRequest _ => true
  | .openAt _ => true
  | .write _ => true
  | .evt (.chunkProgress _ _ _) => true
  | .evt (.chunkDownloaded _ _) => true
  | .evt (.chunkFailed _) => true
  | _ => false

/-- Actions a chunk fetch may perform after its request is issued. -/
def chunkLocalA : Act → Bool
  | .openAt _ => true
  | .write _ => true
  | .evt (.chunkProgress _ _ _) => true
  | .evt (.chunkDownloaded _ _) => true
  | .evt (.chunkFailed _) => true
  | _ => false

def isGetA : Act → Bool
  | .getRequest _ => true
  | _ => false

def isWriteA : Act → Bool
  | .write _ => true
  | _ => false

def isOpenAtA : Act → Bool
  | .openAt _ => true
  | _ => false

def isSetLenA : Act → Bool
  | .setLength _ => true
  | _ => false

def isChunkDoneA : Act → Bool
  | .evt (.chunkDownloaded _ _) => true
  | _ => false

def isChunkFailedA : Act → Bool
  | .evt (.chunkFailed _) => true
  | _ => false

def isDownloadFailedA : Act → Bool
  | .evt (.downloadFailed _) => true
  | _ => false

/-- `Interleaves ls out`: `out` is a merge of the lists in `ls` that keeps
the relative order within each list (the possible schedules of
concurrently running action sequences). -/
inductive Interleaves : List (List Act) → List Act → Prop
  | nil (ls : List (List Act)) : (∀ l ∈ ls, l = []) → Interleaves ls []
  | cons (ls ls' : List (List Act)) (k : Nat) (x : Act) (xs out : List Act) :
      ls.get? k = some (x :: xs) → ls' = ls.set k xs → Interleaves ls' out →
      Interleaves ls (x :: out)

theorem perm_append_swap {α : Type} (p s A B : List α) :
    List.Perm ((p ++ s) ++ (A ++ B)) ((p ++ A) ++ (s ++ B)) := by
  have h1 : List.Perm (s ++ A) (A ++ s) := List.perm_append_comm
  have h2 := (h1.append_right B).append_left p
  have e1 : (p ++ s) ++ (A ++ B) = p ++ ((s ++ A) ++ B) := by
    simp [List.append_assoc]
  have e2 : (p ++ A) ++ (s ++ B) = p ++ ((A ++ s) ++ B) := by
    simp [List.append_assoc]
  rw [e1, e2]
  exact h2

theorem join_set_perm {α : Type} :
    ∀ (ls : List (List α)) (k : Nat) (x : α) (xs : List α),
      ls.get? k = some (x :: xs) →
        List.Perm ls.flatten (x :: (ls.set k xs).flatten) := by
  intro ls
  induction ls with
  | nil => intro k x xs h; cases k <;> simp at h
  | cons l rest ih =>
    intro k x xs h
    cases k with
    | zero =>
      simp only [List.get?] at h
      cases h
      simp only [List.set, List.flatten_cons]
      exact List.Perm.refl _
    | succ k' =>
      simp only [List.get?] at h
      have hper := ih k' x xs h
      simp only [List.set, List.flatten_cons]
      exact (hper.append_left l).trans List.perm_middle

theorem interleaves_perm {ls : List (List Act)} {out : List Act}
    (h : Interleaves ls out) : List.Perm out ls.flatten := by
  induction h with
  | nil ls h =>
    have hnil : ls.flatten = [] := by
      rw [List.flatten_eq_nil_iff]
      exact h
    rw [hnil]
  | cons ls ls' k x xs out hget hset _ ih =>
    subst hset
    exact (ih.cons x).trans (join_set_perm ls k x xs hget).symm

theorem interleaves_nil_head {ls : List (List Act)} {out : List Act}
    (h : Interleaves ls out) : Interleaves ([] :: ls) out := by
  induction h with
  | nil ls h =>
    refine .nil _ ?_
    intro l hl
    rcases List.mem_cons.mp hl with h1 | h2
    · exact h1
    · exact h l h2
  | cons ls ls' k x xs out hget hset _ ih =>
    refine .cons _ ([] :: ls') (k + 1) x xs out ?_ ?_ ih
    · simpa using hget
    · simp [hset, List.set]

theorem interleaves_cons_head {xs : List Act} {ls : List (List Act)}
    {out : List Act} (x : Act) (h : Interleaves (xs :: ls) out) :
    Interleaves ((x :: xs) :: ls) (x :: out) :=
  .cons ((x :: xs) :: ls) (xs :: ls) 0 x xs out rfl rfl h

theorem interleaves_flatten_self (ls : List (List Act)) :
    Interleaves ls ls.flatten := by
  induction ls with
  | nil => exact .nil [] (by simp)
  | cons l rest ih =>
    induction l with
    | nil => simpa using interleaves_nil_head ih
    | cons x xs ihx => simpa using interleaves_cons_head x ihx

theorem zip_append_flatten_perm {α : Type} :
    ∀ ps ss : List (List α), ps.length = ss.length →
      List.Perm (List.zipWith (fun a b => a ++ b) ps ss).flatten
        (ps.flatten ++ ss.flatten) := by
  intro ps
  induction ps with
  | nil =>
    intro ss h
    cases ss with
    | nil => exact List.Perm.refl _
    | cons s sr => simp at h
  | cons p pr ih =>
    intro ss h
    cases ss with
    | nil => simp at h
    | cons s sr =>
      simp only [List.zipWith, List.flatten_cons]
      have hrec := ih sr (by simpa using h)
      exact (hrec.append_left (p ++ s)).trans
        (perm_append_swap p s pr.flatten sr.flatten)

/-- The data-piping actions of one chunk fetch. -/
def bodyActs (s : Nat) (e : Option Nat) (body : List Nat) : List Act :=
  body.flatMap (fun n => [.write n, .evt (.chunkProgress s e n)])

theorem bodyActs_mem (s : Nat) (e : Option Nat) (body : List Nat) (a : Act)
    (ha : a ∈ bodyActs s e body) :
    ∃ n, a = .write n ∨ a = .evt (.chunkProgress s e n) := by
  rw [bodyActs, List.mem_flatMap] at ha
  obtain ⟨n, _, ha⟩ := ha
  rcases List.mem_cons.mp ha with ha | ha
  · exact ⟨n, Or.inl ha⟩
  · exact ⟨n, Or.inr (List.mem_singleton.mp ha)⟩

theorem chunkAsync_trace_bad (s : Nat) (e : Option Nat) (st : Nat)
    (body : List Nat) (oc : StreamOutcome) (hst : st ≠ 206 ∧ st ≠ 200) :
    chunkAsync s e (.resp st body oc) =
      ([], .error ("Unexpected status code: " ++ toString st)) := by
  simp [chunkAsync, hst]

theorem chunkAsync_trace_done (s : Nat) (e : Option Nat) (st : Nat)
    (body : List Nat) (hst : ¬(st ≠ 206 ∧ st ≠ 200)) :
    chunkAsync s e (.resp st body .done) =
      ((.openAt s :: bodyActs s e body) ++ [.evt (.chunkDownloaded s e)],
        .ok ()) := by
  simp [chunkAsync, hst, bodyActs]

theorem chunkAsync_trace_err (s : Nat) (e : Option Nat) (st : Nat)
    (body : List Nat) (m : String) (hst : ¬(st ≠ 206 ∧ st ≠ 200)) :
    chunkAsync s e (.resp st body (.err m)) =
      ((.openAt s :: bodyActs s e body) ++ [.evt (.chunkFailed m)],
        .error m) := by
  simp [chunkAsync, hst, bodyActs]

theorem chunkAsync_mem_local (s : Nat) (e : Option Nat) (b : FetchBehavior) :
    ∀ a ∈ (chunkAsync s e b).1, chunkLocalA a = true := by
  intro a ha
  cases b with
  | reqError m =>
    simp only [chunkAsync, List.mem_singleton] at ha
    subst ha
    rfl
  | resp st body oc =>
    by_cases hst : st ≠ 206 ∧ st ≠ 200
    · rw [chunkAsync_trace_bad s e st body oc hst] at ha
      cases ha
    · cases oc with
      | done =>
        rw [chunkAsync_trace_done s e st body hst] at ha
        rcases List.mem_append.mp ha with ha | ha
        · rcases List.mem_cons.mp ha with rfl | ha
          · rfl
          · obtain ⟨n, hn⟩ := bodyActs_mem s e body a ha
            rcases hn with rfl | rfl <;> rfl
        · rcases List.mem_singleton.mp ha with rfl
          rfl
      | err m =>
        rw [chunkAsync_trace_err s e st body m hst] at ha
        rcases List.mem_append.mp ha with ha | ha
        · rcases List.mem_cons.mp ha with rfl | ha
          · rfl
          · obtain ⟨n, hn⟩ := bodyActs_mem s e body a ha
            rcases hn with rfl | rfl <;> rfl
        · rcases List.mem_singleton.mp ha with rfl
          rfl

theorem chunkAsync_done_noChunkFailed (s : Nat) (e : Option Nat) (st : Nat)
    (body : List Nat) :
    ∀ a ∈ (chunkAsync s e (.resp st body .done)).1, isChunkFailedA a = false := by
  intro a ha
  by_cases hst : st ≠ 206 ∧ st ≠ 200
  · rw [chunkAsync_trace_bad s e st body .done hst] at ha
    cases ha
  · rw [chunkAsync_trace_done s e st body hst] at ha
    rcases List.mem_append.mp ha with ha | ha
    · rcases List.mem_cons.mp ha with rfl | ha
      · rfl
      · obtain ⟨n, hn⟩ := bodyActs_mem s e body a ha
        rcases hn with rfl | rfl <;> rfl
    · rcases List.mem_singleton.mp ha with rfl
      rfl

theorem chunkAsync_ok_noChunkFailed (s : Nat) (e : Option Nat) (b : FetchBehavior)
    (hok : (chunkAsync s e b).2 = .ok ()) :
    ∀ a ∈ (chunkAsync s e b).1, isChunkFailedA a = false := by
  cases b with
  | reqError m => simp [chunkAsync] at hok
  | resp st body oc =>
    cases oc with
    | done => exact chunkAsync_done_noChunkFailed s e st body
    | err m =>
      by_cases hst : st ≠ 206 ∧ st ≠ 200
      · rw [chunkAsync_trace_bad s e st body _ hst] at hok
        cases hok
      · rw [chunkAsync_trace_err s e st body m hst] at hok
        cases hok

theorem bodyActs_countP_done_zero (s : Nat) (e : Option Nat) (body : List Nat) :
    (bodyActs s e body).countP isChunkDoneA = 0 := by
  rw [List.countP_eq_zero]
  intro a ha
  obtain ⟨n, hn⟩ := bodyActs_mem s e body a ha
  rcases hn with rfl | rfl <;> simp [isChunkDoneA]

theorem chunkAsync_ok_countDone (s : Nat) (e : Option Nat) (b : FetchBehavior)
    (hok : (chunkAsync s e b).2 = .ok ()) :
    (chunkAsync s e b).1.countP isChunkDoneA = 1 := by
  cases b with
  | reqError m => simp [chunkAsync] at hok
  | resp st body oc =>
    by_cases hst : st ≠ 206 ∧ st ≠ 200
    · rw [chunkAsync_trace_bad s e st body oc hst] at hok
      cases hok
    · cases oc with
      | done =>
        rw [chunkAsync_trace_done s e st body hst]
        rw [List.countP_append, List.countP_cons, bodyActs_countP_done_zero]
        rfl
      | err m =>
        rw [chunkAsync_trace_err s e st body m hst] at hok
        cases hok

theorem chunkAsync_openAt_eq (s : Nat) (e : Option Nat) (b : FetchBehavior) :
    ∀ t, Act.openAt t ∈ (chunkAsync s e b).1 → t = s := by
  intro t ht
  cases b with
  | reqError m => simp [chunkAsync] at ht
  | resp st body oc =>
    by_cases hst : st ≠ 206 ∧ st ≠ 200
    · rw [chunkAsync_trace_bad s e st body oc hst] at ht
      cases ht
    · have hgen : ∀ tail : List Act,
        Act.openAt t ∈ (Act.openAt s :: bodyActs s e body) ++ tail →
          (∀ a ∈ tail, isOpenAtA a = false) → t = s := by
        intro tail hmem htail
        rcases List.mem_append.mp hmem with hm | hm
        · rcases List.mem_cons.mp hm with hm | hm
          · exact (Act.openAt.injEq t s).mp hm
          · obtain ⟨n, hn⟩ := bodyActs_mem s e body _ hm
            rcases hn with hn | hn <;> cases hn
        · have := htail _ hm
          simp [isOpenAtA] at this
      cases oc with
      | done =>
        rw [chunkAsync_trace_done s e st body hst] at ht
        refine hgen _ ht ?_
        intro a ha
        rcases List.mem_singleton.mp ha with rfl
        rfl
      | err m =>
        rw [chunkAsync_trace_err s e st body m hst] at ht
        refine hgen _ ht ?_
        intro a ha
        rcases List.mem_singleton.mp ha with rfl
        rfl

theorem chunkAsync_done_error_msg (s : Nat) (e : Option Nat) (st : Nat)
    (body : List Nat) (m : String)
    (h : (chunkAsync s e (.resp st body .done)).2 = .error m) :
    m = ("Unexpected status code: " ++ toString st) ∧ st ≠ 200 ∧ st ≠ 206 := by
  by_cases hst : st ≠ 206 ∧ st ≠ 200
  · rw [chunkAsync_trace_bad s e st body .done hst] at h
    cases h
    exact ⟨rfl, hst.2, hst.1⟩
  · rw [chunkAsync_trace_done s e st body hst] at h
    cases h

theorem countP_zero_of_all (P : Act → Bool) (l : List Act)
    (h : ∀ a ∈ l, P a = false) : l.countP P = 0 := by
  rw [List.countP_eq_zero]
  intro a ha
  simp [h a ha]

/-! ## The download orchestrator (`Downloadr.download`) -/

/-- Environment of one `download()` run: the probe outcome, whether the
preallocation file operations throw (and with which message), and the
behaviour of the fetch launched for each chunk index. -/
structure Env where
  probe : ProbeResult
  preallocError : Option String
  chunkBehavior : Nat → FetchBehavior

/-- The single-fetch condition `fileSize === -1 || this.chunkCount === 1`
evaluated on the discovery result for the given probe headers. -/
def singleCond (cr cl : Option String) : Prop :=
  (getFileSize cr cl).1 = some (-1) ∨ (getFileSize cr cl).2 = some 1

instance (cr cl : Option String) : Decidable (singleCond cr cl) := by
  unfold singleCond
  infer_instance

/-- Actions of a multi-chunk run before any response handling: the probe,
the preallocation (`openSync` with mode `w`, `ftruncateSync` to the file
size, `closeSync`), the `DOWNLOAD_START` event, and the synchronous
issuing of every ranged `protocolClient.get` in plan order. -/
def multiLead (n : Nat) (chunks : List Chunk) : List Act :=
  [.probeRequest, .openTrunc, .setLength n, .closeFd, .evt .downloadStart] ++
    chunks.map (fun c => .getRequest (rangeHeader c.start (some c.stop)))

/-- The response-handling action sequences of the fetches of a chunk plan,
one per chunk, in plan order. -/
def asyncParts (chunks : List Chunk) (beh : Nat → FetchBehavior) :
    List (List Act) :=
  chunks.enum.map (fun p => (chunkAsync p.2.start (some p.2.stop) (beh p.1)).1)

/-- The trace of the whole-file (single-fetch) mode: `DOWNLOAD_START`, the
unranged `protocolClient.get`, then the response handling of chunk 0. -/
def singleLead : List Act :=
  [.probeRequest, .evt .downloadStart, .getRequest (rangeHeader 0 none)]

/-- One run of `Downloadr.download()` in environment `env`: `T` is the
sequence of visible actions and the second index the settled result of the
returned promise.  Probe errors and preallocation errors reach the `catch`
block before `DOWNLOAD_START`; the single-fetch mode runs `downloadChunk(0,
Infinity)` sequentially; the multi-chunk mode preallocates, emits
`DOWNLOAD_START`, issues all ranged requests synchronously in plan order
and then interleaves their response handling arbitrarily;
`DOWNLOAD_COMPLETE` is emitted only after every fetch resolved, while a
failing run emits `DOWNLOAD_FAILED` with the first rejection (a chunk whose
handling is already fully scheduled), after which the remaining handlers
may still run.  Preallocation of a `NaN` size (unknown discovery result in
multi mode) throws, with the partial file actions before the failing step
abstracted away. -/
inductive DownloadRun (env : Env) : List Act → Except String Unit → Prop
  | probeFail (m : String) :
      env.probe = .err m →
      DownloadRun env [.probeRequest, .evt (.downloadFailed m)] (.error m)
  | singleOk (cr cl : Option String) :
      env.probe = .resp cr cl →
      singleCond cr cl →
      (chunkAsync 0 none (env.chunkBehavior 0)).2 = .ok () →
      DownloadRun env
        (singleLead ++ (chunkAsync 0 none (env.chunkBehavior 0)).1 ++
          [.evt .downloadComplete])
        (.ok ())
  | singleFail (cr cl : Option String) (m : String) :
      env.probe = .resp cr cl →
      singleCond cr cl →
      (chunkAsync 0 none (env.chunkBehavior 0)).2 = .error m →
      DownloadRun env
        (singleLead ++ (chunkAsync 0 none (env.chunkBehavior 0)).1 ++
          [.evt (.downloadFailed m)])
        (.error m)
  | preallocFail (cr cl : Option String) (m : String) :
      env.probe = .resp cr cl →
      ¬ singleCond cr cl →
      (env.preallocError = some m ∨
        ((getFileSize cr cl).1 = none ∧ m = ("file size out of range"))) →
      DownloadRun env [.probeRequest, .evt (.downloadFailed m)] (.error m)
  | multiOk (cr cl : Option String) (n kc : Int) (M : List Act) :
      env.probe = .resp cr cl →
      ¬ singleCond cr cl →
      (getFileSize cr cl).1 = some n →
      (getFileSize cr cl).2 = some kc →
      env.preallocError = none →
      Interleaves (asyncParts (getChunks kc.toNat n.toNat) env.chunkBehavior) M →
      (∀ p ∈ (getChunks kc.toNat n.toNat).enum,
        (chunkAsync p.2.start (some p.2.stop) (env.chunkBehavior p.1)).2 =
          .ok ()) →
      DownloadRun env
        (multiLead n.toNat (getChunks kc.toNat n.toNat) ++ M ++
          [.evt .downloadComplete])
        (.ok ())
  | multiFail (cr cl : Option String) (n kc : Int) (m : String)
      (pres sufs : List (List Act)) (A B : List Act) :
      env.probe = .resp cr cl →
      ¬ singleCond cr cl →
      (getFileSize cr cl).1 = some n →
      (getFileSize cr cl).2 = some kc →
      env.preallocError = none →
      pres.length = sufs.length →
      asyncParts (getChunks kc.toNat n.toNat) env.chunkBehavior =
        List.zipWith (fun a b => a ++ b) pres sufs →
      Interleaves pres A →
      Interleaves sufs B →
      (∃ i c, (getChunks kc.toNat n.toNat).get? i = some c ∧
        sufs.get? i = some [] ∧
        (chunkAsync c.start (some c.stop) (env.chunkBehavior i)).2 =
          .error m) →
      DownloadRun env
        (multiLead n.toNat (getChunks kc.toNat n.toNat) ++ A ++
          [.evt (.downloadFailed m)] ++ B)
        (.error m)

theorem asyncParts_flatten_local (chunks : List Chunk)
    (beh : Nat → FetchBehavior) :
    ∀ a ∈ (asyncParts chunks beh).flatten, chunkLocalA a = true := by
  intro a ha
  rw [List.mem_flatten] at ha
  obtain ⟨l, hl, hal⟩ := ha
  rw [asyncParts, List.mem_map] at hl
  obtain ⟨p, _, rfl⟩ := hl
  exact chunkAsync_mem_local _ _ _ a hal

theorem interleave_mem_flatten {ls : List (List Act)} {out : List Act}
    (h : Interleaves ls out) : ∀ a ∈ out, a ∈ ls.flatten := by
  intro a ha
  exact (interleaves_perm h).mem_iff.mp ha

theorem merge_mem_parts {parts pres sufs : List (List Act)} {A B : List Act}
    (hlen : pres.length = sufs.length)
    (hzip : parts = List.zipWith (fun a b => a ++ b) pres sufs)
    (hA : Interleaves pres A) (hB : Interleaves sufs B) :
    ∀ a, a ∈ A ∨ a ∈ B → a ∈ parts.flatten := by
  intro a ha
  have hmem : a ∈ pres.flatten ++ sufs.flatten := by
    rcases ha with ha | ha
    · exact List.mem_append.mpr (Or.inl (interleave_mem_flatten hA a ha))
    · exact List.mem_append.mpr (Or.inr (interleave_mem_flatten hB a ha))
  rw [hzip]
  exact (zip_append_flatten_perm pres sufs hlen).mem_iff.mpr hmem

theorem merge_countP {parts pres sufs : List (List Act)} {A B : List Act}
    (hlen : pres.length = sufs.length)
    (hzip : parts = List.zipWith (fun a b => a ++ b) pres sufs)
    (hA : Interleaves pres A) (hB : Interleaves sufs B) (P : Act → Bool) :
    A.countP P + B.countP P = parts.flatten.countP P := by
  rw [(interleaves_perm hA).countP_eq P, (interleaves_perm hB).countP_eq P,
    ← List.countP_append, hzip]
  exact ((zip_append_flatten_perm pres sufs hlen).countP_eq P).symm

theorem asyncParts_ok_countDone (chunks : List Chunk)
    (beh : Nat → FetchBehavior)
    (hok : ∀ p ∈ chunks.enum,
      (chunkAsync p.2.start (some p.2.stop) (beh p.1)).2 = .ok ()) :
    (asyncParts chunks beh).flatten.countP isChunkDoneA = chunks.length := by
  rw [List.countP_flatten]
  have hmap : (asyncParts chunks beh).map (fun l => l.countP isChunkDoneA) =
      (asyncParts chunks beh).map (fun _ => 1) := by
    rw [asyncParts, List.map_map, List.map_map]
    apply List.map_congr_left
    intro p hp
    exact chunkAsync_ok_countDone _ _ _ (hok p hp)
  rw [hmap, List.map_const', List.sum_replicate, smul_eq_mul, mul_one]
  rw [asyncParts, List.length_map, List.enum_length]

theorem asyncParts_done_noChunkFailed (chunks : List Chunk)
    (beh : Nat → FetchBehavior)
    (hdone : ∀ i, ∃ st body, beh i = .resp st body .done) :
    ∀ a ∈ (asyncParts chunks beh).flatten, isChunkFailedA a = false := by
  intro a ha
  rw [List.mem_flatten] at ha
  obtain ⟨l, hl, hal⟩ := ha
  rw [asyncParts, List.mem_map] at hl
  obtain ⟨p, _, rfl⟩ := hl
  obtain ⟨st, body, hb⟩ := hdone p.1
  rw [hb] at hal
  exact chunkAsync_done_noChunkFailed _ _ st body a hal

theorem asyncParts_ok_noChunkFailed (chunks : List Chunk)
    (beh : Nat → FetchBehavior)
    (hok : ∀ p ∈ chunks.enum,
      (chunkAsync p.2.start (some p.2.stop) (beh p.1)).2 = .ok ()) :
    ∀ a ∈ (asyncParts chunks beh).flatten, isChunkFailedA a = false := by
  intro a ha
  rw [List.mem_flatten] at ha
  obtain ⟨l, hl, hal⟩ := ha
  rw [asyncParts, List.mem_map] at hl
  obtain ⟨p, hp, rfl⟩ := hl
  exact chunkAsync_ok_noChunkFailed _ _ _ (hok p hp) a hal

theorem eventsOf_append (T₁ T₂ : List Act) :
    eventsOf (T₁ ++ T₂) = eventsOf T₁ ++ eventsOf T₂ := by
  rw [eventsOf, List.filterMap_append]
  rfl

theorem eventsOf_multiLead (n : Nat) (chunks : List Chunk) :
    eventsOf (multiLead n chunks) = [.downloadStart] := by
  rw [multiLead, eventsOf, List.filterMap_append]
  rw [List.filterMap_map]
  simp

theorem chunkLocal_not_complete (a : Act) (h : chunkLocalA a = true) :
    a ≠ .evt .downloadComplete := by
  intro heq
  subst heq
  cases h

theorem chunkLocal_not_downloadFailed (a : Act) (h : chunkLocalA a = true) :
    isDownloadFailedA a = false := by
  cases a with
  | evt e => cases e <;> first | rfl | cases h
  | _ => rfl

theorem chunkLocal_not_get (a : Act) (h : chunkLocalA a = true) :
    isGetA a = false := by
  cases a with
  | getRequest r => cases h
  | evt e => rfl
  | probeRequest => rfl
  | openTrunc => rfl
  | setLength n => rfl
  | closeFd => rfl
  | openAt s => rfl
  | write b => rfl

theorem chunkLocal_not_setLen (a : Act) (h : chunkLocalA a = true) :
    isSetLenA a = false := by
  cases a with
  | setLength n => cases h
  | evt e => rfl
  | probeRequest => rfl
  | openTrunc => rfl
  | getRequest r => rfl
  | closeFd => rfl
  | openAt s => rfl
  | write b => rfl

theorem chunkLocal_done_count (a : Act) (h : chunkLocalA a = false) :
    isChunkDoneA a = false := by
  cases a with
  | evt e => cases e <;> first | rfl | cases h
  | probeRequest => rfl
  | openTrunc => rfl
  | getRequest r => rfl
  | setLength n => rfl
  | closeFd => rfl
  | openAt s => cases h
  | write b => cases h

theorem multiLead_mem (n : Nat) (chunks : List Chunk) (a : Act)
    (ha : a ∈ multiLead n chunks) :
    a = .probeRequest ∨ a = .openTrunc ∨ a = .setLength n ∨ a = .closeFd ∨
      a = .evt .downloadStart ∨
      ∃ c ∈ chunks, a = .getRequest (rangeHeader c.start (some c.stop)) := by
  rw [multiLead] at ha
  rcases List.mem_append.mp ha with ha | ha
  · simp only [List.mem_cons, List.mem_singleton] at ha
    tauto
  · rw [List.mem_map] at ha
    obtain ⟨c, hc, rfl⟩ := ha
    refine Or.inr (Or.inr (Or.inr (Or.inr (Or.inr ⟨c, hc, rfl⟩))))

theorem complete_not_mem_multiLead (n : Nat) (chunks : List Chunk) :
    Act.evt .downloadComplete ∉ multiLead n chunks := by
  intro h
  rcases multiLead_mem n chunks _ h with h | h | h | h | h | ⟨c, hc, h⟩ <;>
    simp at h

theorem multiLead_all_not_chunkFailed (n : Nat) (chunks : List Chunk) :
    ∀ a ∈ multiLead n chunks, isChunkFailedA a = false := by
  intro a ha
  rcases multiLead_mem n chunks a ha with h | h | h | h | h | ⟨c, hc, h⟩ <;>
    subst h <;> rfl

theorem multiLead_all_not_downloadFailed (n : Nat) (chunks : List Chunk) :
    ∀ a ∈ multiLead n chunks, isDownloadFailedA a = false := by
  intro a ha
  rcases multiLead_mem n chunks a ha with h | h | h | h | h | ⟨c, hc, h⟩ <;>
    subst h <;> rfl

theorem multiLead_all_not_chunkDone (n : Nat) (chunks : List Chunk) :
    ∀ a ∈ multiLead n chunks, isChunkDoneA a = false := by
  intro a ha
  rcases multiLead_mem n chunks a ha with h | h | h | h | h | ⟨c, hc, h⟩ <;>
    subst h <;> rfl

theorem multiLead_countP_get (n : Nat) (chunks : List Chunk) :
    (multiLead n chunks).countP isGetA = chunks.length := by
  rw [multiLead, List.countP_append]
  have h1 : List.countP isGetA
      [Act.probeRequest, .openTrunc, .setLength n, .closeFd,
        .evt .downloadStart] = 0 := by
    simp [List.countP_cons, isGetA]
  have h2 : (chunks.map
      (fun c => Act.getRequest (rangeHeader c.start (some c.stop)))).countP
        isGetA = chunks.length := by
    induction chunks with
    | nil => rfl
    | cons c rest ih =>
      simp only [List.map_cons, List.countP_cons, ih]
      rfl
  rw [h1, h2]
  omega

theorem complete_not_mem_singleLead : Act.evt .downloadComplete ∉ singleLead := by
  decide


/-- C4: in every run of `download()` (runs with failing size discovery or
preallocation included), all chunk activity is preceded by a
`DOWNLOAD_START` event; in every successful run `DOWNLOAD_START` is the
first event emitted, `DOWNLOAD_COMPLETE` is the final action (hence
strictly after every `CHUNK_DOWNLOADED`, of which there is one per issued
fetch); and `DOWNLOAD_COMPLETE` is emitted only in successful runs, in
which no chunk-failure notification occurs. -/
theorem download_event_order_spec (env : Env) (T : List Act)
    (r : Except String Unit) (hrun : DownloadRun env T r) :
    (r = .ok () → (eventsOf T).head? = some .downloadStart) ∧
    (∃ P R, T = P ++ R ∧ (∀ a ∈ P, chunkAct a = false) ∧
      (R = [] ∨ ∃ R', R = .evt .downloadStart :: R')) ∧
    (r = .ok () → ∃ T', T = T' ++ [.evt .downloadComplete] ∧
      Act.evt .downloadComplete ∉ T') ∧
    (Act.evt .downloadComplete ∈ T → r = .ok () ∧
      T.countP isChunkFailedA = 0) ∧
    (r = .ok () → T.countP isChunkDoneA = T.countP isGetA) := by
  cases hrun with
  | probeFail m hp =>
    refine ⟨fun h => Except.noConfusion h, ?_, fun h => Except.noConfusion h,
      ?_, fun h => Except.noConfusion h⟩
    · refine ⟨[.probeRequest, .evt (.downloadFailed m)], [],
        (List.append_nil _).symm, ?_, Or.inl rfl⟩
      intro a ha
      rcases List.mem_cons.mp ha with rfl | ha
      · rfl
      · rcases List.mem_singleton.mp ha with rfl
        rfl
    · intro hmem
      simp at hmem
  | singleOk cr cl hp hcond hok =>
    refine ⟨fun _ => rfl, ?_, ?_, ?_, ?_⟩
    · refine ⟨[.probeRequest],
        .evt .downloadStart :: .getRequest (rangeHeader 0 none) ::
          ((chunkAsync 0 none (env.chunkBehavior 0)).1 ++
            [.evt .downloadComplete]), ?_, ?_, Or.inr ⟨_, rfl⟩⟩
      · simp [singleLead]
      · intro a ha
        rcases List.mem_singleton.mp ha with rfl
        rfl
    · intro _
      refine ⟨singleLead ++ (chunkAsync 0 none (env.chunkBehavior 0)).1,
        rfl, ?_⟩
      intro hmem
      rcases List.mem_append.mp hmem with h | h
      · exact complete_not_mem_singleLead h
      · exact chunkLocal_not_complete _ (chunkAsync_mem_local _ _ _ _ h) rfl
    · intro _
      refine ⟨rfl, ?_⟩
      simp only [List.countP_append]
      have h1 : singleLead.countP isChunkFailedA = 0 := by decide
      have h2 : (chunkAsync 0 none (env.chunkBehavior 0)).1.countP
          isChunkFailedA = 0 :=
        countP_zero_of_all _ _ (chunkAsync_ok_noChunkFailed 0 none _ hok)
      rw [h1, h2]
      rfl
    · intro _
      simp only [List.countP_append]
      have h1 : singleLead.countP isChunkDoneA = 0 := by decide
      have h2 : singleLead.countP isGetA = 1 := by decide
      have h3 := chunkAsync_ok_countDone 0 none (env.chunkBehavior 0) hok
      have h4 : (chunkAsync 0 none (env.chunkBehavior 0)).1.countP
          isGetA = 0 :=
        countP_zero_of_all _ _
          (fun a ha => chunkLocal_not_get a (chunkAsync_mem_local _ _ _ a ha))
      rw [h1, h2, h3, h4]
      rfl
  | singleFail cr cl m hp hcond herr =>
    refine ⟨fun h => Except.noConfusion h, ?_, fun h => Except.noConfusion h,
      ?_, fun h => Except.noConfusion h⟩
    · refine ⟨[.probeRequest],
        .evt .downloadStart :: .getRequest (rangeHeader 0 none) ::
          ((chunkAsync 0 none (env.chunkBehavior 0)).1 ++
            [.evt (.downloadFailed m)]), ?_, ?_, Or.inr ⟨_, rfl⟩⟩
      · simp [singleLead]
      · intro a ha
        rcases List.mem_singleton.mp ha with rfl
        rfl
    · intro hmem
      exfalso
      rcases List.mem_append.mp hmem with h | h
      · rcases List.mem_append.mp h with h | h
        · exact complete_not_mem_singleLead h
        · exact chunkLocal_not_complete _ (chunkAsync_mem_local _ _ _ _ h) rfl
      · rcases List.mem_singleton.mp h with h
        simp at h
  | preallocFail cr cl m hp hcond hcause =>
    refine ⟨fun h => Except.noConfusion h, ?_, fun h => Except.noConfusion h,
      ?_, fun h => Except.noConfusion h⟩
    · refine ⟨[.probeRequest, .evt (.downloadFailed m)], [],
        (List.append_nil _).symm, ?_, Or.inl rfl⟩
      intro a ha
      rcases List.mem_cons.mp ha with rfl | ha
      · rfl
      · rcases List.mem_singleton.mp ha with rfl
        rfl
    · intro hmem
      simp at hmem
  | multiOk cr cl n kc M hp hcond hs hcc2 hpre hM hok =>
    refine ⟨fun _ => rfl, ?_, ?_, ?_, ?_⟩
    · refine ⟨[.probeRequest, .openTrunc, .setLength n.toNat, .closeFd],
        .evt .downloadStart ::
          ((getChunks kc.toNat n.toNat).map
            (fun c => .getRequest (rangeHeader c.start (some c.stop))) ++
            (M ++ [.evt .downloadComplete])), ?_, ?_, Or.inr ⟨_, rfl⟩⟩
      · simp [multiLead, List.append_assoc]
      · intro a ha
        rcases List.mem_cons.mp ha with rfl | ha
        · rfl
        rcases List.mem_cons.mp ha with rfl | ha
        · rfl
        rcases List.mem_cons.mp ha with rfl | ha
        · rfl
        rcases List.mem_singleton.mp ha with rfl
        rfl
    · intro _
      refine ⟨multiLead n.toNat (getChunks kc.toNat n.toNat) ++ M, rfl, ?_⟩
      intro hmem
      rcases List.mem_append.mp hmem with h | h
      · exact complete_not_mem_multiLead _ _ h
      · exact chunkLocal_not_complete _
          (asyncParts_flatten_local _ _ _ (interleave_mem_flatten hM _ h)) rfl
    · intro _
      refine ⟨rfl, ?_⟩
      simp only [List.countP_append]
      have h1 := countP_zero_of_all isChunkFailedA _
        (multiLead_all_not_chunkFailed n.toNat (getChunks kc.toNat n.toNat))
      have h2 : M.countP isChunkFailedA = 0 := by
        rw [(interleaves_perm hM).countP_eq]
        exact countP_zero_of_all _ _ (asyncParts_ok_noChunkFailed _ _ hok)
      rw [h1, h2]
      rfl
    · intro _
      simp only [List.countP_append]
      have h1 := countP_zero_of_all isChunkDoneA _
        (multiLead_all_not_chunkDone n.toNat (getChunks kc.toNat n.toNat))
      have h2 : M.countP isChunkDoneA = (getChunks kc.toNat n.toNat).length := by
        rw [(interleaves_perm hM).countP_eq]
        exact asyncParts_ok_countDone _ _ hok
      have h3 := multiLead_countP_get n.toNat (getChunks kc.toNat n.toNat)
      have h4 : M.countP isGetA = 0 :=
        countP_zero_of_all _ _ (fun a ha => chunkLocal_not_get a
          (asyncParts_flatten_local _ _ _ (interleave_mem_flatten hM _ ha)))
      rw [h1, h2, h3, h4]
      simp [isChunkDoneA, isGetA]
  | multiFail cr cl n kc m pres sufs A B hp hcond hs hcc2 hpre hlen hzip hA hB hex =>
    refine ⟨fun h => Except.noConfusion h, ?_, fun h => Except.noConfusion h,
      ?_, fun h => Except.noConfusion h⟩
    · refine ⟨[.probeRequest, .openTrunc, .setLength n.toNat, .closeFd],
        .evt .downloadStart ::
          ((getChunks kc.toNat n.toNat).map
            (fun c => .getRequest (rangeHeader c.start (some c.stop))) ++
            (A ++ ([.evt (.downloadFailed m)] ++ B))), ?_, ?_,
        Or.inr ⟨_, rfl⟩⟩
      · simp [multiLead, List.append_assoc]
      · intro a ha
        rcases List.mem_cons.mp ha with rfl | ha
        · rfl
        rcases List.mem_cons.mp ha with rfl | ha
        · rfl
        rcases List.mem_cons.mp ha with rfl | ha
        · rfl
        rcases List.mem_singleton.mp ha with rfl
        rfl
    · intro hmem
      exfalso
      rcases List.mem_append.mp hmem with h | h
      · rcases List.mem_append.mp h with h | h
        · rcases List.mem_append.mp h with h | h
          · exact complete_not_mem_multiLead _ _ h
          · exact chunkLocal_not_complete _
              (asyncParts_flatten_local _ _ _
                (merge_mem_parts hlen hzip hA hB _ (Or.inl h))) rfl
        · rcases List.mem_singleton.mp h with h
          simp at h
      · exact chunkLocal_not_complete _
          (asyncParts_flatten_local _ _ _
            (merge_mem_parts hlen hzip hA hB _ (Or.inr h))) rfl

theorem asyncParts_done_noDownloadFailed (chunks : List Chunk)
    (beh : Nat → FetchBehavior) :
    ∀ a ∈ (asyncParts chunks beh).flatten, isDownloadFailedA a = false :=
  fun a ha => chunkLocal_not_downloadFailed a (asyncParts_flatten_local _ _ a ha)

/-- C5 (amended): in a run with a well-formed probe response, successful
preallocation, and chunk responses that all stream to a clean end with
statuses among 200, 206 and 404, any failure is the status error
`Unexpected status code: 404`; such a run emits no
`CHUNK_DOWNLOAD_FAILED` notification at all (the status-check rejection
path does not emit one), emits exactly one `DOWNLOAD_FAILED`, and never
emits `DOWNLOAD_COMPLETE`. -/
theorem status404_failure_spec (env : Env) (T : List Act)
    (r : Except String Unit) (hrun : DownloadRun env T r)
    (cr cl : Option String) (hp : env.probe = .resp cr cl)
    (hpre : env.preallocError = none)
    (hsz : ∃ s, (getFileSize cr cl).1 = some s)
    (hbeh : ∀ i, ∃ st body, env.chunkBehavior i = .resp st body .done ∧
      (st = 200 ∨ st = 206 ∨ st = 404)) :
    (∀ m, r = .error m → m = ("Unexpected status code: 404")) ∧
    T.countP isChunkFailedA = 0 ∧
    (r ≠ .ok () → T.countP isDownloadFailedA = 1 ∧
      Act.evt .downloadComplete ∉ T) ∧
    (Act.evt .downloadComplete ∈ T → r = .ok ()) := by
  cases hrun with
  | probeFail m hp' =>
    exact absurd (hp'.symm.trans hp) (fun h => ProbeResult.noConfusion h)
  | singleOk cr' cl' hp' hcond hok =>
    refine ⟨fun m hm => Except.noConfusion hm, ?_, fun hne => absurd rfl hne,
      fun _ => rfl⟩
    simp only [List.countP_append]
    have h1 : singleLead.countP isChunkFailedA = 0 := by decide
    have h2 : (chunkAsync 0 none (env.chunkBehavior 0)).1.countP
        isChunkFailedA = 0 :=
      countP_zero_of_all _ _ (chunkAsync_ok_noChunkFailed 0 none _ hok)
    rw [h1, h2]
    rfl
  | singleFail cr' cl' m hp' hcond herr =>
    obtain ⟨st, body, hb, hopt⟩ := hbeh 0
    rw [hb] at herr
    obtain ⟨hm, hne200, hne206⟩ := chunkAsync_done_error_msg _ _ _ _ _ herr
    have hst : st = 404 := by omega
    subst hst
    subst hm
    have hnc : Act.evt .downloadComplete ∉
        singleLead ++ (chunkAsync 0 none (env.chunkBehavior 0)).1 ++
          [.evt (.downloadFailed ("Unexpected status code: " ++ toString 404))] := by
      intro hmem
      rcases List.mem_append.mp hmem with h | h
      · rcases List.mem_append.mp h with h | h
        · exact complete_not_mem_singleLead h
        · exact chunkLocal_not_complete _ (chunkAsync_mem_local _ _ _ _ h) rfl
      · rcases List.mem_singleton.mp h with h
        simp at h
    refine ⟨?_, ?_, ?_, fun hmem => absurd hmem hnc⟩
    · intro m' hm'
      have : m' = ("Unexpected status code: " ++ toString 404) := by
        cases hm'
        rfl
      rw [this]
      decide
    · simp only [List.countP_append]
      have h1 : singleLead.countP isChunkFailedA = 0 := by decide
      have h2 : (chunkAsync 0 none (env.chunkBehavior 0)).1.countP
          isChunkFailedA = 0 := by
        rw [hb]
        exact countP_zero_of_all _ _ (chunkAsync_done_noChunkFailed _ _ _ _)
      rw [h1, h2]
      rfl
    · intro _
      refine ⟨?_, hnc⟩
      simp only [List.countP_append]
      have h1 : singleLead.countP isDownloadFailedA = 0 := by decide
      have h2 : (chunkAsync 0 none (env.chunkBehavior 0)).1.countP
          isDownloadFailedA = 0 :=
        countP_zero_of_all _ _
          (fun a ha => chunkLocal_not_downloadFailed a
            (chunkAsync_mem_local _ _ _ a ha))
      rw [h1, h2]
      rfl
  | preallocFail cr' cl' m hp' hcond hcause =>
    have hinj := hp'.symm.trans hp
    rw [ProbeResult.resp.injEq] at hinj
    obtain ⟨rfl, rfl⟩ := hinj
    obtain ⟨s, hs⟩ := hsz
    rcases hcause with hc | ⟨hc, _⟩
    · rw [hpre] at hc
      exact Option.noConfusion hc
    · rw [hs] at hc
      exact Option.noConfusion hc
  | multiOk cr' cl' n kc M hp' hcond hs hcc2 hpre' hM hok =>
    refine ⟨fun m hm => Except.noConfusion hm, ?_, fun hne => absurd rfl hne,
      fun _ => rfl⟩
    simp only [List.countP_append]
    have h1 := countP_zero_of_all isChunkFailedA _
      (multiLead_all_not_chunkFailed n.toNat (getChunks kc.toNat n.toNat))
    have h2 : M.countP isChunkFailedA = 0 := by
      rw [(interleaves_perm hM).countP_eq]
      exact countP_zero_of_all _ _ (asyncParts_ok_noChunkFailed _ _ hok)
    rw [h1, h2]
    rfl
  | multiFail cr' cl' n kc m pres sufs A B hp' hcond hs hcc2 hpre' hlen hzip hA hB hex =>
    have hinj := hp'.symm.trans hp
    rw [ProbeResult.resp.injEq] at hinj
    obtain ⟨rfl, rfl⟩ := hinj
    have hdone : ∀ i, ∃ st body,
        env.chunkBehavior i = .resp st body .done := by
      intro i
      obtain ⟨st, body, hb, _⟩ := hbeh i
      exact ⟨st, body, hb⟩
    have hcf : A.countP isChunkFailedA + B.countP isChunkFailedA = 0 := by
      rw [merge_countP hlen hzip hA hB]
      exact countP_zero_of_all _ _
        (asyncParts_done_noChunkFailed _ _ hdone)
    have hdf : A.countP isDownloadFailedA + B.countP isDownloadFailedA = 0 := by
      rw [merge_countP hlen hzip hA hB]
      exact countP_zero_of_all _ _ (asyncParts_done_noDownloadFailed _ _)
    have hnc : Act.evt .downloadComplete ∉
        multiLead n.toNat (getChunks kc.toNat n.toNat) ++ A ++
          [.evt (.downloadFailed m)] ++ B := by
      intro hmem
      rcases List.mem_append.mp hmem with h | h
      · rcases List.mem_append.mp h with h | h
        · rcases List.mem_append.mp h with h | h
          · exact complete_not_mem_multiLead _ _ h
          · exact chunkLocal_not_complete _
              (asyncParts_flatten_local _ _ _
                (merge_mem_parts hlen hzip hA hB _ (Or.inl h))) rfl
        · rcases List.mem_singleton.mp h with h
          simp at h
      · exact chunkLocal_not_complete _
          (asyncParts_flatten_local _ _ _
            (merge_mem_parts hlen hzip hA hB _ (Or.inr h))) rfl
    refine ⟨?_, ?_, ?_, fun hmem => absurd hmem hnc⟩
    · intro m' hm'
      obtain ⟨i, c, hc, hsuf, herr⟩ := hex
      obtain ⟨st, body, hb, hopt⟩ := hbeh i
      rw [hb] at herr
      obtain ⟨hm, hne200, hne206⟩ := chunkAsync_done_error_msg _ _ _ _ _ herr
      have hst : st = 404 := by omega
      subst hst
      have hmm : m' = m := by
        cases hm'
        rfl
      rw [hmm, hm]
      decide
    · simp only [List.countP_append]
      have h1 := countP_zero_of_all isChunkFailedA _
        (multiLead_all_not_chunkFailed n.toNat (getChunks kc.toNat n.toNat))
      have h3 : List.countP isChunkFailedA [Act.evt (.downloadFailed m)] = 0 := by
        simp [List.countP_cons, isChunkFailedA]
      rw [h1, h3]
      omega
    · intro _
      refine ⟨?_, hnc⟩
      simp only [List.countP_append]
      have h1 := countP_zero_of_all isDownloadFailedA _
        (multiLead_all_not_downloadFailed n.toNat (getChunks kc.toNat n.toNat))
      have h3 : List.countP isDownloadFailedA [Act.evt (.downloadFailed m)] = 1 := by
        simp [List.countP_cons, isDownloadFailedA]
      rw [h1, h3]
      omega

theorem singleLead_get_none :
    ∀ h, Act.getRequest h ∈ singleLead → h = none := by
  intro h hm
  rcases List.mem_cons.mp hm with hm | hm
  · cases hm
  rcases List.mem_cons.mp hm with hm | hm
  · cases hm
  rcases List.mem_singleton.mp hm with hm
  cases hm
  rfl

theorem chunkLocal_no_get (h : Option String) (a : Act)
    (hl : chunkLocalA a = true) : Act.getRequest h ≠ a := by
  intro heq
  rw [← heq] at hl
  cases hl

/-- C7: whenever the discovered size is the unknown sentinel or the
resolved chunk count is 1, the run issues exactly one fetch and that fetch
carries no `Range` header; conversely, every `Range`-carrying fetch of any
run requests exactly `bytes=<start>-<end>` for one of its planned chunks. -/
theorem single_mode_request_spec (env : Env) (T : List Act)
    (r : Except String Unit) (hrun : DownloadRun env T r)
    (cr cl : Option String) (hp : env.probe = .resp cr cl) :
    (singleCond cr cl → T.countP isGetA = 1 ∧
      (∀ h, Act.getRequest h ∈ T → h = none)) ∧
    (∀ s, Act.getRequest (some s) ∈ T →
      ∃ n kc c, (getFileSize cr cl).1 = some n ∧
        (getFileSize cr cl).2 = some kc ∧
        c ∈ getChunks kc.toNat n.toNat ∧
        s = ("bytes=" ++ toString c.start ++ "-" ++ toString c.stop)) := by
  cases hrun with
  | probeFail m hp' =>
    exact absurd (hp'.symm.trans hp) (fun h => ProbeResult.noConfusion h)
  | singleOk cr' cl' hp' hcond hok =>
    have hmem : ∀ h, Act.getRequest h ∈
        singleLead ++ (chunkAsync 0 none (env.chunkBehavior 0)).1 ++
          [.evt .downloadComplete] → h = none := by
      intro h hm
      rcases List.mem_append.mp hm with hm | hm
      · rcases List.mem_append.mp hm with hm | hm
        · exact singleLead_get_none h hm
        · exact absurd rfl
            (chunkLocal_no_get h _ (chunkAsync_mem_local _ _ _ _ hm))
      · rcases List.mem_singleton.mp hm with hm
        cases hm
    refine ⟨fun _ => ⟨?_, hmem⟩, ?_⟩
    · simp only [List.countP_append]
      have h1 : singleLead.countP isGetA = 1 := by decide
      have h2 : (chunkAsync 0 none (env.chunkBehavior 0)).1.countP isGetA = 0 :=
        countP_zero_of_all _ _
          (fun a ha => chunkLocal_not_get a (chunkAsync_mem_local _ _ _ a ha))
      rw [h1, h2]
      rfl
    · intro s hm
      have := hmem (some s) hm
      exact Option.noConfusion this
  | singleFail cr' cl' m hp' hcond herr =>
    have hmem : ∀ h, Act.getRequest h ∈
        singleLead ++ (chunkAsync 0 none (env.chunkBehavior 0)).1 ++
          [.evt (.downloadFailed m)] → h = none := by
      intro h hm
      rcases List.mem_append.mp hm with hm | hm
      · rcases List.mem_append.mp hm with hm | hm
        · exact singleLead_get_none h hm
        · exact absurd rfl
            (chunkLocal_no_get h _ (chunkAsync_mem_local _ _ _ _ hm))
      · rcases List.mem_singleton.mp hm with hm
        cases hm
    refine ⟨fun _ => ⟨?_, hmem⟩, ?_⟩
    · simp only [List.countP_append]
      have h1 : singleLead.countP isGetA = 1 := by decide
      have h2 : (chunkAsync 0 none (env.chunkBehavior 0)).1.countP isGetA = 0 :=
        countP_zero_of_all _ _
          (fun a ha => chunkLocal_not_get a (chunkAsync_mem_local _ _ _ a ha))
      rw [h1, h2]
      rfl
    · intro s hm
      have := hmem (some s) hm
      exact Option.noConfusion this
  | preallocFail cr' cl' m hp' hcond hcause =>
    have hinj := hp'.symm.trans hp
    rw [ProbeResult.resp.injEq] at hinj
    obtain ⟨rfl, rfl⟩ := hinj
    refine ⟨fun hc => absurd hc hcond, ?_⟩
    intro s hm
    exfalso
    rcases List.mem_cons.mp hm with hm | hm
    · cases hm
    rcases List.mem_singleton.mp hm with hm
    cases hm
  | multiOk cr' cl' n kc M hp' hcond hs hcc2 hpre hM hok =>
    have hinj := hp'.symm.trans hp
    rw [ProbeResult.resp.injEq] at hinj
    obtain ⟨rfl, rfl⟩ := hinj
    refine ⟨fun hc => absurd hc hcond, ?_⟩
    intro s hm
    rcases List.mem_append.mp hm with hm | hm
    · rcases List.mem_append.mp hm with hm | hm
      · rcases multiLead_mem _ _ _ hm with h | h | h | h | h | ⟨c, hc, h⟩
        · cases h
        · cases h
        · cases h
        · cases h
        · cases h
        · have h2 : some s = rangeHeader c.start (some c.stop) := by
            injection h
          simp only [rangeHeader, Option.some.injEq] at h2
          exact ⟨n, kc, c, hs, hcc2, hc, h2⟩
      · exact absurd rfl (chunkLocal_no_get (some s) _
          (asyncParts_flatten_local _ _ _ (interleave_mem_flatten hM _ hm)))
    · rcases List.mem_singleton.mp hm with hm
      cases hm
  | multiFail cr' cl' n kc m pres sufs A B hp' hcond hs hcc2 hpre hlen hzip hA hB hex =>
    have hinj := hp'.symm.trans hp
    rw [ProbeResult.resp.injEq] at hinj
    obtain ⟨rfl, rfl⟩ := hinj
    refine ⟨fun hc => absurd hc hcond, ?_⟩
    intro s hm
    rcases List.mem_append.mp hm with hm | hm
    · rcases List.mem_append.mp hm with hm | hm
      · rcases List.mem_append.mp hm with hm | hm
        · rcases multiLead_mem _ _ _ hm with h | h | h | h | h | ⟨c, hc, h⟩
          · cases h
          · cases h
          · cases h
          · cases h
          · cases h
          · have h2 : some s = rangeHeader c.start (some c.stop) := by
              injection h
            simp only [rangeHeader, Option.some.injEq] at h2
            exact ⟨n, kc, c, hs, hcc2, hc, h2⟩
        · exact absurd rfl (chunkLocal_no_get (some s) _
            (asyncParts_flatten_local _ _ _
              (merge_mem_parts hlen hzip hA hB _ (Or.inl hm))))
      · rcases List.mem_singleton.mp hm with hm
        cases hm
    · exact absurd rfl (chunkLocal_no_get (some s) _
        (asyncParts_flatten_local _ _ _
          (merge_mem_parts hlen hzip hA hB _ (Or.inr hm))))

theorem multi_lead_decomp (env : Env) (T : List Act)
    (r : Except String Unit) (hrun : DownloadRun env T r)
    (cr cl : Option String) (hp : env.probe = .resp cr cl)
    (hcond : ¬ singleCond cr cl) (hget : ∃ h, Act.getRequest h ∈ T) :
    ∃ n rest, (getFileSize cr cl).1 = some n ∧
      T = [.probeRequest, .openTrunc, .setLength n.toNat, .closeFd,
        .evt .downloadStart] ++ rest := by
  cases hrun with
  | probeFail m hp' =>
    exact absurd (hp'.symm.trans hp) (fun h => ProbeResult.noConfusion h)
  | singleOk cr' cl' hp' hcond' hok =>
    have hinj := hp'.symm.trans hp
    rw [ProbeResult.resp.injEq] at hinj
    obtain ⟨rfl, rfl⟩ := hinj
    exact absurd hcond' hcond
  | singleFail cr' cl' m hp' hcond' herr =>
    have hinj := hp'.symm.trans hp
    rw [ProbeResult.resp.injEq] at hinj
    obtain ⟨rfl, rfl⟩ := hinj
    exact absurd hcond' hcond
  | preallocFail cr' cl' m hp' hcond' hcause =>
    exfalso
    obtain ⟨h, hm⟩ := hget
    rcases List.mem_cons.mp hm with hm | hm
    · cases hm
    rcases List.mem_singleton.mp hm with hm
    cases hm
  | multiOk cr' cl' n kc M hp' hcond' hs hcc2 hpre hM hok =>
    have hinj := hp'.symm.trans hp
    rw [ProbeResult.resp.injEq] at hinj
    obtain ⟨rfl, rfl⟩ := hinj
    refine ⟨n, (getChunks kc.toNat n.toNat).map
        (fun c => .getRequest (rangeHeader c.start (some c.stop))) ++
        (M ++ [.evt .downloadComplete]), hs, ?_⟩
    simp [multiLead, List.append_assoc]
  | multiFail cr' cl' n kc m pres sufs A B hp' hcond' hs hcc2 hpre hlen hzip hA hB hex =>
    have hinj := hp'.symm.trans hp
    rw [ProbeResult.resp.injEq] at hinj
    obtain ⟨rfl, rfl⟩ := hinj
    refine ⟨n, (getChunks kc.toNat n.toNat).map
        (fun c => .getRequest (rangeHeader c.start (some c.stop))) ++
        (A ++ ([.evt (.downloadFailed m)] ++ B)), hs, ?_⟩
    simp [multiLead, List.append_assoc]

/-- C8: in every multi-chunk run that launches any fetch, the output file
is created or truncated (`openSync` with mode `w`) and extended to exactly
the discovered size before `DOWNLOAD_START`, and hence before every fetch,
stream opening, and write: those five leading actions contain no write, no
positional stream opening, and no fetch request. -/
theorem preallocation_before_fetch_spec (env : Env) (T : List Act)
    (r : Except String Unit) (hrun : DownloadRun env T r)
    (cr cl : Option String) (hp : env.probe = .resp cr cl)
    (hcond : ¬ singleCond cr cl) (hget : ∃ h, Act.getRequest h ∈ T) :
    ∃ n rest, (getFileSize cr cl).1 = some n ∧
      T = [.probeRequest, .openTrunc, .setLength n.toNat, .closeFd,
        .evt .downloadStart] ++ rest ∧
      ∀ a ∈ ([.probeRequest, .openTrunc, .setLength n.toNat, .closeFd,
        .evt .downloadStart] : List Act),
        isWriteA a = false ∧ isOpenAtA a = false ∧ isGetA a = false := by
  obtain ⟨n, rest, hs, hT⟩ :=
    multi_lead_decomp env T r hrun cr cl hp hcond hget
  refine ⟨n, rest, hs, hT, ?_⟩
  intro a ha
  rcases List.mem_cons.mp ha with rfl | ha
  · exact ⟨rfl, rfl, rfl⟩
  rcases List.mem_cons.mp ha with rfl | ha
  · exact ⟨rfl, rfl, rfl⟩
  rcases List.mem_cons.mp ha with rfl | ha
  · exact ⟨rfl, rfl, rfl⟩
  rcases List.mem_cons.mp ha with rfl | ha
  · exact ⟨rfl, rfl, rfl⟩
  rcases List.mem_singleton.mp ha with rfl
  exact ⟨rfl, rfl, rfl⟩

theorem openAt_not_mem_singleLead (t : Nat) : Act.openAt t ∉ singleLead := by
  intro hm
  rcases List.mem_cons.mp hm with hm | hm
  · cases hm
  rcases List.mem_cons.mp hm with hm | hm
  · cases hm
  rcases List.mem_singleton.mp hm with hm
  cases hm

/-- C9 (amended): only multi-chunk runs create or truncate the output
path (before any fetch or write, as part of preallocation); a
single-fetch (whole-file) run performs no creation and no truncation of
the output path at all — it only opens the already-existing file
positioned at offset 0 (`createWriteStream` with mode `r+`). -/
theorem file_creation_policy_spec (env : Env) (T : List Act)
    (r : Except String Unit) (hrun : DownloadRun env T r)
    (cr cl : Option String) (hp : env.probe = .resp cr cl) :
    (singleCond cr cl → Act.openTrunc ∉ T ∧ T.countP isSetLenA = 0 ∧
      ∀ t, Act.openAt t ∈ T → t = 0) ∧
    (¬ singleCond cr cl → (∃ h, Act.getRequest h ∈ T) →
      ∃ n rest, (getFileSize cr cl).1 = some n ∧
        T = [.probeRequest, .openTrunc, .setLength n.toNat, .closeFd,
          .evt .downloadStart] ++ rest) := by
  refine ⟨?_, fun hcond hget =>
    multi_lead_decomp env T r hrun cr cl hp hcond hget⟩
  intro hcond
  cases hrun with
  | probeFail m hp' =>
    exact absurd (hp'.symm.trans hp) (fun h => ProbeResult.noConfusion h)
  | singleOk cr' cl' hp' hcond' hok =>
    refine ⟨?_, ?_, ?_⟩
    · intro hm
      rcases List.mem_append.mp hm with hm | hm
      · rcases List.mem_append.mp hm with hm | hm
        · exact absurd hm (by decide)
        · have := chunkAsync_mem_local _ _ _ _ hm
          cases this
      · rcases List.mem_singleton.mp hm with hm
        cases hm
    · simp only [List.countP_append]
      have h1 : singleLead.countP isSetLenA = 0 := by decide
      have h2 : (chunkAsync 0 none (env.chunkBehavior 0)).1.countP
          isSetLenA = 0 :=
        countP_zero_of_all _ _
          (fun a ha => chunkLocal_not_setLen a (chunkAsync_mem_local _ _ _ a ha))
      rw [h1, h2]
      rfl
    · intro t hm
      rcases List.mem_append.mp hm with hm | hm
      · rcases List.mem_append.mp hm with hm | hm
        · exact absurd hm (openAt_not_mem_singleLead t)
        · exact chunkAsync_openAt_eq _ _ _ t hm
      · rcases List.mem_singleton.mp hm with hm
        cases hm
  | singleFail cr' cl' m hp' hcond' herr =>
    refine ⟨?_, ?_, ?_⟩
    · intro hm
      rcases List.mem_append.mp hm with hm | hm
      · rcases List.mem_append.mp hm with hm | hm
        · exact absurd hm (by decide)
        · have := chunkAsync_mem_local _ _ _ _ hm
          cases this
      · rcases List.mem_singleton.mp hm with hm
        cases hm
    · simp only [List.countP_append]
      have h1 : singleLead.countP isSetLenA = 0 := by decide
      have h2 : (chunkAsync 0 none (env.chunkBehavior 0)).1.countP
          isSetLenA = 0 :=
        countP_zero_of_all _ _
          (fun a ha => chunkLocal_not_setLen a (chunkAsync_mem_local _ _ _ a ha))
      rw [h1, h2]
      rfl
    · intro t hm
      rcases List.mem_append.mp hm with hm | hm
      · rcases List.mem_append.mp hm with hm | hm
        · exact absurd hm (openAt_not_mem_singleLead t)
        · exact chunkAsync_openAt_eq _ _ _ t hm
      · rcases List.mem_singleton.mp hm with hm
        cases hm
  | preallocFail cr' cl' m hp' hcond' hcause =>
    have hinj := hp'.symm.trans hp
    rw [ProbeResult.resp.injEq] at hinj
    obtain ⟨rfl, rfl⟩ := hinj
    exact absurd hcond hcond'
  | multiOk cr' cl' n kc M hp' hcond' hs hcc2 hpre hM hok =>
    have hinj := hp'.symm.trans hp
    rw [ProbeResult.resp.injEq] at hinj
    obtain ⟨rfl, rfl⟩ := hinj
    exact absurd hcond hcond'
  | multiFail cr' cl' n kc m pres sufs A B hp' hcond' hs hcc2 hpre hlen hzip hA hB hex =>
    have hinj := hp'.symm.trans hp
    rw [ProbeResult.resp.injEq] at hinj
    obtain ⟨rfl, rfl⟩ := hinj
    exact absurd hcond hcond'

/-- A probe with no size headers and a clean 200 response with one
5-byte buffer: a concrete single-fetch run. -/
def envSingle : Env where
  probe := .resp none none
  preallocError := none
  chunkBehavior := fun _ => .resp 200 [5] .done

/-- The trace of the `envSingle` run. -/
def traceSingle : List Act :=
  [.probeRequest, .evt .downloadStart, .getRequest none, .openAt 0, .write 5,
    .evt (.chunkProgress 0 none 5), .evt (.chunkDownloaded 0 none),
    .evt .downloadComplete]

theorem runSingle_ok : DownloadRun envSingle traceSingle (.ok ()) :=
  DownloadRun.singleOk none none rfl (Or.inl rfl) rfl

/-- A probe with no size headers and a 404 chunk response: a concrete
single-fetch run failing on the status check. -/
def envSingle404 : Env where
  probe := .resp none none
  preallocError := none
  chunkBehavior := fun _ => .resp 404 [] .done

/-- The trace of the `envSingle404` run. -/
def traceSingle404 : List Act :=
  [.probeRequest, .evt .downloadStart, .getRequest none,
    .evt (.downloadFailed ("Unexpected status code: 404"))]

theorem runSingle404 : DownloadRun envSingle404 traceSingle404
    (.error ("Unexpected status code: 404")) :=
  DownloadRun.singleFail none none ("Unexpected status code: 404") rfl
    (Or.inl rfl) rfl

/-- A probe whose `Content-Range` total is 200 MiB and two clean 206
chunk responses: a concrete two-chunk multi run. -/
def envMulti : Env where
  probe := .resp (some ("bytes 0-0/209715200")) none
  preallocError := none
  chunkBehavior := fun _ => .resp 206 [] .done

/-- The trace of the `envMulti` run with its two fetch handlers scheduled
in plan order. -/
def traceMulti : List Act :=
  [.probeRequest, .openTrunc, .setLength 209715200, .closeFd,
    .evt .downloadStart,
    .getRequest (some ("bytes=0-104857599")),
    .getRequest (some ("bytes=104857600-209715199")),
    .openAt 0, .evt (.chunkDownloaded 0 (some 104857599)),
    .openAt 104857600, .evt (.chunkDownloaded 104857600 (some 209715199)),
    .evt .downloadComplete]

theorem runMulti_ok : DownloadRun envMulti traceMulti (.ok ()) := by
  refine DownloadRun.multiOk (some ("bytes 0-0/209715200")) none 209715200 2
    [.openAt 0, .evt (.chunkDownloaded 0 (some 104857599)),
      .openAt 104857600, .evt (.chunkDownloaded 104857600 (some 209715199))]
    rfl ?_ ?_ ?_ rfl ?_ ?_
  · decide
  · decide
  · decide
  · exact interleaves_flatten_self _
  · intro p hp
    rcases List.mem_cons.mp hp with rfl | hp
    · rfl
    rcases List.mem_singleton.mp hp with rfl
    rfl

/-- Counterexample to C5 as stated: in the concrete run `envSingle404`,
one chunk fetch receives status 404 and no other failure occurs, the
operation fails with `Unexpected status code: 404`, yet the run emits
zero `CHUNK_DOWNLOAD_FAILED` notifications (not exactly one): the
status-check rejection path of `downloadChunk` rejects without emitting. -/
theorem status404_no_chunkFailed_counterexample :
    DownloadRun envSingle404 traceSingle404
      (.error ("Unexpected status code: 404")) ∧
    traceSingle404.countP isChunkFailedA = 0 ∧
    traceSingle404.countP isDownloadFailedA = 1 ∧
    Act.evt .downloadComplete ∉ traceSingle404 :=
  ⟨runSingle404, by decide, by decide, by decide⟩

/-- Witness for C5 (amended) at the concrete 404 run. -/
theorem status404_failure_spec_witness :
    traceSingle404.countP isChunkFailedA = 0 ∧
    traceSingle404.countP isDownloadFailedA = 1 ∧
    Act.evt .downloadComplete ∉ traceSingle404 := by
  have h := status404_failure_spec envSingle404 traceSingle404
    (.error ("Unexpected status code: 404")) runSingle404 none none rfl rfl
    ⟨-1, by decide⟩ (fun i => ⟨404, [], rfl, by omega⟩)
  exact ⟨h.2.1, (h.2.2.1 (fun hc => Except.noConfusion hc)).1,
    (h.2.2.1 (fun hc => Except.noConfusion hc)).2⟩

/-- Witness for C4 at the concrete successful single-fetch run. -/
theorem download_event_order_spec_witness :
    (eventsOf traceSingle).head? = some .downloadStart ∧
    traceSingle.countP isChunkFailedA = 0 ∧
    traceSingle.countP isChunkDoneA = traceSingle.countP isGetA := by
  have h := download_event_order_spec envSingle traceSingle (.ok ()) runSingle_ok
  exact ⟨h.1 rfl, (h.2.2.2.1 (by decide)).2, h.2.2.2.2 rfl⟩

/-- Witness for C7 at the concrete single-fetch run. -/
theorem single_mode_request_spec_witness :
    traceSingle.countP isGetA = 1 ∧
    (Act.getRequest none ∈ traceSingle) := by
  have h := single_mode_request_spec envSingle traceSingle (.ok ()) runSingle_ok
    none none rfl
  exact ⟨(h.1 (Or.inl rfl)).1, by decide⟩

/-- Witness for C8 at the concrete two-chunk run. -/
theorem preallocation_before_fetch_spec_witness :
    ∃ n rest, (getFileSize (some ("bytes 0-0/209715200")) none).1 = some n ∧
      traceMulti = [.probeRequest, .openTrunc, .setLength n.toNat, .closeFd,
        .evt .downloadStart] ++ rest ∧
      ∀ a ∈ ([.probeRequest, .openTrunc, .setLength n.toNat, .closeFd,
        .evt .downloadStart] : List Act),
        isWriteA a = false ∧ isOpenAtA a = false ∧ isGetA a = false :=
  preallocation_before_fetch_spec envMulti traceMulti (.ok ()) runMulti_ok
    (some ("bytes 0-0/209715200")) none rfl (by decide)
    ⟨some ("bytes=0-104857599"), by decide⟩

/-- Counterexample to C9 as stated: the concrete successful single-fetch
run `envSingle` writes body bytes to the output path but its trace
contains no creation or truncation of the output path at all (the
positional write stream is opened with mode `r+`). -/
theorem single_mode_no_truncate_counterexample :
    DownloadRun envSingle traceSingle (.ok ()) ∧
    Act.write 5 ∈ traceSingle ∧
    Act.openTrunc ∉ traceSingle ∧
    traceSingle.countP isSetLenA = 0 :=
  ⟨runSingle_ok, by decide, by decide, by decide⟩

/-- Witness for C9 (amended) at the concrete single-fetch run. -/
theorem file_creation_policy_spec_witness :
    Act.openTrunc ∉ traceSingle ∧ traceSingle.countP isSetLenA = 0 := by
  have h := file_creation_policy_spec envSingle traceSingle (.ok ()) runSingle_ok
    none none rfl
  exact ⟨(h.1 (Or.inl rfl)).1, (h.1 (Or.inl rfl)).2.1⟩
